import Mathlib

/-!
Shallow embedding of the bundle validator (`scripts/validate.mjs`) of the
typescript-best-practices plugin repository, together with proofs of the
specification claims about it.

The script reads `.cursor-plugin/plugin.json`, checks the manifest name
pattern and required fields, optionally warns about a missing logo file,
walks the `skills`, `rules`, `commands` and `agents` directories checking
frontmatter blocks of Markdown files, prints a report and exits.

The filesystem is modelled by the `FS` structure; strings are modelled by
`String` / `List Char` with JavaScript semantics (UTF-16-free, per code
point) for the operations the script uses.
-/

/-- JavaScript-like primitive value as obtained from `JSON.parse`. -/
inductive JsVal where
  | str (s : String)
  | num (n : Int)
  | bool (b : Bool)
  | null
deriving DecidableEq

/-- JavaScript truthiness of a value. -/
def JsVal.truthy : JsVal → Bool
  | .str s => !(s == "")
  | .num n => !(n == 0)
  | .bool b => b
  | .null => false

/-- Truthiness of a possibly-absent (`undefined`) value. -/
def truthyOpt : Option JsVal → Bool
  | none => false
  | some v => v.truthy

/-- JavaScript string coercion of a value (as in template literals and
`RegExp.test`). -/
def JsVal.toStr : JsVal → String
  | .str s => s
  | .num n => toString n
  | .bool b => if b then "true" else "false"
  | .null => "null"

/-- String coercion of a possibly-absent value (`undefined` prints as
such). -/
def jsStrOpt : Option JsVal → String
  | none => "undefined"
  | some v => v.toStr

/-- ASCII word character, JavaScript regex class `\w`. -/
def isWordChar (c : Char) : Bool :=
  ('a' ≤ c && c ≤ 'z') || ('A' ≤ c && c ≤ 'Z') || ('0' ≤ c && c ≤ '9') || c == '_'

/-- Character admitted inside a frontmatter key: `[\w-]`. -/
def keyChar (c : Char) : Bool := isWordChar c || c == '-'

/-- JavaScript whitespace (regex class `\s`, also the set trimmed by
`String.prototype.trim`). -/
def isSpaceJs (c : Char) : Bool :=
  c == ' ' || c == '\t' || c == '\n' || c == '\r' ||
  c == Char.ofNat 11 || c == Char.ofNat 12 || c == Char.ofNat 0xa0 ||
  c == Char.ofNat 0x1680 || (Char.ofNat 0x2000 ≤ c && c ≤ Char.ofNat 0x200a) ||
  c == Char.ofNat 0x2028 || c == Char.ofNat 0x2029 || c == Char.ofNat 0x202f ||
  c == Char.ofNat 0x205f || c == Char.ofNat 0x3000 || c == Char.ofNat 0xfeff

/-- Character matched by the regex `.` (anything but a line terminator). -/
def dotChar (c : Char) : Bool :=
  !(c == '\n' || c == '\r' || c == Char.ofNat 0x2028 || c == Char.ofNat 0x2029)

/-- `content.replace(/\r\n/g, "\n")`: left-to-right replacement of CRLF by
LF. -/
def normChars : List Char → List Char
  | [] => []
  | '\r' :: '\n' :: rest => '\n' :: normChars rest
  | c :: rest => c :: normChars rest

/-- `s.indexOf(pat, start)` over the suffix beginning at `start` (the
pattern is nonempty in every use). -/
def idxFrom (pat : List Char) : List Char → Nat → Option Nat
  | [], i => if pat.isPrefixOf ([] : List Char) then some i else none
  | t@(_ :: rest), i => if pat.isPrefixOf t then some i else idxFrom pat rest (i + 1)

/-- `block.split("\n")`. -/
def splitNl : List Char → List (List Char)
  | [] => [[]]
  | '\n' :: rest => [] :: splitNl rest
  | c :: rest =>
    match splitNl rest with
    | [] => [[c]]
    | l :: ls => (c :: l) :: ls

/-- `s.trim()`. -/
def trimChars (l : List Char) : List Char :=
  ((l.dropWhile isSpaceJs).reverse.dropWhile isSpaceJs).reverse

/-- Split a line into its maximal leading run of key characters and the
remainder. -/
def splitKey : List Char → List Char × List Char
  | [] => ([], [])
  | c :: rest =>
    if keyChar c then
      let p := splitKey rest
      (c :: p.1, p.2)
    else ([], c :: rest)

/-- Whether `\s*(.+)$` matches the part of the line after the colon: some
split of the suffix into a whitespace run followed by a nonempty run of
`.`-matchable characters reaching the end of the line. -/
def valueMatch (suffix : List Char) : Bool :=
  match suffix.dropWhile isSpaceJs with
  | [] =>
    match suffix.reverse with
    | [] => false
    | last :: _ => dotChar last
  | r0 => r0.all dotChar

/-- One line against `/^(\w[\w-]*):\s*(.+)$/`, returning the captured key
and the trimmed captured value (`match[2].trim()` equals the trimmed
suffix after the colon whenever the regex matches). -/
def parseLine (l : List Char) : Option (String × String) :=
  match splitKey l with
  | ([], _) => none
  | (_, []) => none
  | (c :: kc, ch :: suffix) =>
    if ch == ':' && isWordChar c && valueMatch suffix then
      some (String.mk (c :: kc), String.mk (trimChars suffix))
    else none

/-- JavaScript object property assignment `fields[k] = v` on an
insertion-ordered association list. -/
def insertField : List (String × String) → String → String → List (String × String)
  | [], k, v => [(k, v)]
  | (k0, v0) :: rest, k, v =>
    if k0 = k then (k0, v) :: rest else (k0, v0) :: insertField rest k v

/-- Property lookup `fields[k]` on the association list. -/
def lookupField : List (String × String) → String → Option String
  | [], _ => none
  | (k0, v0) :: rest, k => if k0 = k then some v0 else lookupField rest k

/-- One loop iteration of the frontmatter field collection. -/
def fmStep (acc : List (String × String)) (l : List Char) : List (String × String) :=
  match parseLine l with
  | some (k, v) => insertField acc k v
  | none => acc

/-- The field-collection loop over the block lines. -/
def fmFold (lines : List (List Char)) : List (String × String) :=
  lines.foldl fmStep []

/-- The opening delimiter `---\n`. -/
def dashOpen : List Char := ['-', '-', '-', '\n']

/-- The closing delimiter `\n---\n`. -/
def dashClose : List Char := ['\n', '-', '-', '-', '\n']

/-- `parseFrontmatter(content)` from the script: normalize line endings,
require the `---` opening line, locate the closing `---` line from index
4 on, and collect `key: value` lines of the block in between. -/
def parseFrontmatter (content : String) : Option (List (String × String)) :=
  if dashOpen.isPrefixOf (normChars content.data) then
    match idxFrom dashClose ((normChars content.data).drop 4) 4 with
    | none => none
    | some closing => some (fmFold (splitNl (((normChars content.data).take closing).drop 4)))
  else none

/-- Value of the last block line that matches the `key: value` regex with
the given key, trimmed; `none` when no line with that key matches. -/
def lastVal (k : String) : List (List Char) → Option String
  | [] => none
  | l :: ls =>
    match lastVal k ls with
    | some v => some v
    | none =>
      match parseLine l with
      | some (k0, v) => if k0 = k then some v else none
      | none => none

/-- Remove every binding of a key from a field list (used to compare a
falsy-valued key with a genuinely absent one). -/
def eraseField : List (String × String) → String → List (String × String)
  | [], _ => []
  | (k0, v0) :: rest, k =>
    if k0 = k then eraseField rest k else (k0, v0) :: eraseField rest k

/-- Truthiness of `fields[k]` (absent or empty-string values are falsy). -/
def truthyLookup (fm : List (String × String)) (k : String) : Bool :=
  match lookupField fm k with
  | some v => !(v == "")
  | none => false

/-- Lowercase ASCII letter or digit: the regex class `[a-z0-9]`. -/
def isLowerAlnum (c : Char) : Bool :=
  ('a' ≤ c && c ≤ 'z') || ('0' ≤ c && c ≤ '9')

/-- The interior class `[a-z0-9.-]` of the manifest name pattern. -/
def nameInner (c : Char) : Bool := isLowerAlnum c || c == '.' || c == '-'

/-- `/^[a-z0-9](?:[a-z0-9.-]*[a-z0-9])?$/.test(s)`. -/
def namePatTest (s : String) : Bool :=
  match s.data with
  | [] => false
  | c :: rest =>
    isLowerAlnum c &&
      (match rest.reverse with
       | [] => true
       | d :: mid => isLowerAlnum d && mid.all nameInner)

/-- The plugin manifest object: the fields the validator reads, each
possibly absent. -/
structure Manifest where
  name : Option JsVal
  description : Option JsVal
  version : Option JsVal
  author : Option JsVal
  license : Option JsVal
  logo : Option JsVal
deriving DecidableEq

/-- Manifest field access `pluginJson[field]` for the field names the
script uses. -/
def getField (m : Manifest) : String → Option JsVal
  | "name" => m.name
  | "description" => m.description
  | "version" => m.version
  | "author" => m.author
  | "license" => m.license
  | "logo" => m.logo
  | _ => none

/-- Replace one manifest field (a meta-operation used to state claims). -/
def setField (m : Manifest) (f : String) (v : Option JsVal) : Manifest :=
  match f with
  | "name" => { m with name := v }
  | "description" => { m with description := v }
  | "version" => { m with version := v }
  | "author" => { m with author := v }
  | "license" => { m with license := v }
  | "logo" => { m with logo := v }
  | _ => m

/-- The required-field list of the script. -/
def requiredFields : List String := ["name", "description", "version", "author", "license"]

/-- One entry of the `skills` directory: its name and, when present, the
content of its `SKILL.md`. -/
structure SkillEntry where
  name : String
  skillMd : Option String
deriving DecidableEq

/-- One file of a flat directory listing, with its content. -/
structure DirFile where
  fname : String
  content : String
deriving DecidableEq

/-- The filesystem state a validator run reads: the parsed manifest
(`none` when missing, unparseable or falsy), logo existence, and the four
optional directory listings. -/
structure FS where
  manifest : Option Manifest
  fileExists : String → Bool
  skillsDir : Option (List SkillEntry)
  rulesDir : Option (List DirFile)
  commandsDir : Option (List DirFile)
  agentsDir : Option (List DirFile)

/-- The observable outcome of a run: printed lines, the two accumulator
lists, and the process exit code. -/
structure Report where
  out : List String
  errors : List String
  warnings : List String
  exitCode : Nat
deriving DecidableEq

/-- The fatal manifest error message. -/
def fatalMsg : String := ".cursor-plugin/plugin.json is missing or invalid"

/-- An apostrophe, kept as a named character. -/
def apos : String := String.singleton (Char.ofNat 39)

/-- The name-pattern error message. -/
def patternMsg (n : String) : String :=
  "plugin.json name \"" ++ (n ++ ("\" doesn" ++ (apos ++ "t match pattern")))

/-- The missing-required-field error message. -/
def fieldMsg (f : String) : String := "plugin.json missing required field: " ++ f

/-- The missing `SKILL.md` error message. -/
def skillNoFileMsg (n : String) : String := "Skill " ++ (n ++ " is missing SKILL.md")

/-- The missing-frontmatter error message for a skill. -/
def skillNoFmMsg (n : String) : String := "Skill " ++ (n ++ "/SKILL.md is missing frontmatter")

/-- The missing `skills` directory error message. -/
def skillsMissingMsg : String := "skills/ directory is missing"

/-- The rule error message (used both for missing frontmatter and for a
missing description). -/
def ruleMsg (n : String) : String := "Rule " ++ (n ++ " missing description in frontmatter")

/-- The logo warning message. -/
def logoMsg (p : String) : String := "Logo file not found: " ++ p

/-- The two required-key checks run on a parsed frontmatter object. -/
def fmKeyErrors (label ent : String) (fm : List (String × String)) : List String :=
  (if truthyLookup fm "name" then [] else [label ++ (ent ++ " missing name in frontmatter")]) ++
  (if truthyLookup fm "description" then [] else [label ++ (ent ++ " missing description in frontmatter")])

/-- The per-skill checks of the skills loop. -/
def skillCheck (sk : SkillEntry) : List String :=
  match sk.skillMd with
  | none => [skillNoFileMsg sk.name]
  | some content =>
    match parseFrontmatter content with
    | none => [skillNoFmMsg sk.name]
    | some fm => fmKeyErrors "Skill " (sk.name ++ "/SKILL.md") fm

/-- The per-file checks of the commands and agents loops. -/
def docCheck (label : String) (f : DirFile) : List String :=
  match parseFrontmatter f.content with
  | none => [label ++ (f.fname ++ " missing frontmatter")]
  | some fm => fmKeyErrors label f.fname fm

/-- The per-file check of the rules loop. -/
def ruleCheck (f : DirFile) : List String :=
  match parseFrontmatter f.content with
  | none => [ruleMsg f.fname]
  | some fm => if truthyLookup fm "description" then [] else [ruleMsg f.fname]

/-- Rule file extension filter: `.mdc` or `.md`. -/
def isRuleFile (f : DirFile) : Bool := f.fname.endsWith ".mdc" || f.fname.endsWith ".md"

/-- Markdown extension filter for commands and agents. -/
def isMdFile (f : DirFile) : Bool := f.fname.endsWith ".md"

/-- Errors recorded by the skills section (absence of the directory is an
error). -/
def skillsErrors : Option (List SkillEntry) → List String
  | some entries => (entries.map skillCheck).flatten
  | none => [skillsMissingMsg]

/-- Output of the skills section. -/
def skillsOut : Option (List SkillEntry) → List String
  | some entries => ["  Skills: " ++ (toString entries.length ++ " found")]
  | none => []

/-- Errors recorded by the rules section (absence is silently skipped). -/
def rulesErrors : Option (List DirFile) → List String
  | some files => (((files.filter isRuleFile)).map ruleCheck).flatten
  | none => []

/-- Output of the rules section. -/
def rulesOut : Option (List DirFile) → List String
  | some files => ["  Rules: " ++ (toString (files.filter isRuleFile).length ++ " found")]
  | none => []

/-- Errors recorded by the commands section (absence is silently
skipped). -/
def commandsErrors : Option (List DirFile) → List String
  | some files => ((files.filter isMdFile).map (docCheck "Command ")).flatten
  | none => []

/-- Output of the commands section. -/
def commandsOut : Option (List DirFile) → List String
  | some files => ["  Commands: " ++ (toString (files.filter isMdFile).length ++ " found")]
  | none => []

/-- Errors recorded by the agents section (absence is silently skipped). -/
def agentsErrors : Option (List DirFile) → List String
  | some files => ((files.filter isMdFile).map (docCheck "Agent ")).flatten
  | none => []

/-- Output of the agents section. -/
def agentsOut : Option (List DirFile) → List String
  | some files => ["  Agents: " ++ (toString (files.filter isMdFile).length ++ " found")]
  | none => []

/-- The name-pattern check (the name is string-coerced by
`RegExp.testdot`; an absent name coerces to the string `undefined`). -/
def nameErrors (m : Manifest) : List String :=
  if namePatTest (jsStrOpt m.name) then [] else [patternMsg (jsStrOpt m.name)]

/-- The required-field loop: one error per falsy required field, in
order. -/
def missingFieldErrors (m : Manifest) : List String :=
  (requiredFields.filter (fun f => !truthyOpt (getField m f))).map fieldMsg

/-- The logo check: a warning when a truthy logo path names a file that
does not exist. -/
def logoWarnings (m : Manifest) (logoThere : Bool) : List String :=
  if truthyOpt m.logo && !logoThere then [logoMsg (jsStrOpt m.logo)] else []

/-- The warnings block printed at the end of a run. -/
def warnBlock (warnings : List String) : List String :=
  if warnings.length > 0 then
    ("Warnings (" ++ (toString warnings.length ++ "):")) ::
      (warnings.map (fun w => "  ⚠ " ++ w) ++ [""])
  else []

/-- The errors block printed at the end of a run, or the success line. -/
def errBlock (errors : List String) : List String :=
  if errors.length > 0 then
    ("Errors (" ++ (toString errors.length ++ "):")) ::
      (errors.map (fun e => "  ✗ " ++ e) ++ [""])
  else ["✓ Plugin validation passed"]

/-- The whole `validatePlugin` run over a filesystem state.  When the
manifest is falsy the function records the fatal error and returns at
once: nothing is printed and, the final reporting block being skipped,
the process exits normally with code 0. -/
def validatePlugin (fs : FS) : Report :=
  match fs.manifest with
  | none => { out := [], errors := [fatalMsg], warnings := [], exitCode := 0 }
  | some m =>
    let errs := nameErrors m ++ missingFieldErrors m ++ skillsErrors fs.skillsDir ++
      rulesErrors fs.rulesDir ++ commandsErrors fs.commandsDir ++ agentsErrors fs.agentsDir
    let warns := logoWarnings m (fs.fileExists (jsStrOpt m.logo))
    { out := ("Validating plugin: " ++ (jsStrOpt m.name ++ "\n")) ::
        (skillsOut fs.skillsDir ++ rulesOut fs.rulesDir ++ commandsOut fs.commandsDir ++
         agentsOut fs.agentsDir ++ [""] ++ warnBlock warns ++ errBlock errs),
      errors := errs, warnings := warns,
      exitCode := if errs.isEmpty then 0 else 1 }

/-- A run as a state transformer: the validator only reads the
filesystem, so the state component is returned unchanged. -/
def runValidator (fs : FS) : Report × FS := (validatePlugin fs, fs)

/-! ### Generic string and list helpers -/

/-- Boolean prefix test on strings, by code points. -/
def hasPfx (p s : String) : Bool := p.data.isPrefixOf s.data

/-- Left-biased choice on optional values. -/
def orElseO (a b : Option String) : Option String :=
  match a with
  | some v => some v
  | none => b

/-- The first line of the normalized content. -/
def firstLineOf (c : String) : List Char :=
  (normChars c.data).takeWhile (fun ch => ch != '\n')

theorem ne_of_pfxT (p : String) {a b : String} (h1 : hasPfx p a = true)
    (h2 : hasPfx p b = false) : a ≠ b := by
  intro he
  rw [he] at h1
  rw [h1] at h2
  exact Bool.noConfusion h2

theorem idxFrom_ge (pat : List Char) :
    ∀ (t : List Char) (i j : Nat), idxFrom pat t i = some j → i ≤ j := by
  intro t
  induction t with
  | nil =>
    intro i j h
    unfold idxFrom at h
    split at h
    · exact Nat.le_of_eq (Option.some.inj h)
    · exact absurd h (by simp)
  | cons a rest ih =>
    intro i j h
    unfold idxFrom at h
    split at h
    · exact Nat.le_of_eq (Option.some.inj h)
    · exact Nat.le_of_succ_le (ih (i + 1) j h)

theorem parseFrontmatter_eq_some {c : String} {fm : List (String × String)}
    (h : parseFrontmatter c = some fm) :
    dashOpen.isPrefixOf (normChars c.data) = true ∧
    ∃ i, idxFrom dashClose ((normChars c.data).drop 4) 4 = some i ∧ 4 ≤ i ∧
      fm = fmFold (splitNl (((normChars c.data).take i).drop 4)) := by
  unfold parseFrontmatter at h
  by_cases hp : dashOpen.isPrefixOf (normChars c.data) = true
  · refine ⟨hp, ?_⟩
    rw [hp] at h
    simp only [if_true] at h
    rcases hidx : idxFrom dashClose ((normChars c.data).drop 4) 4 with _ | i
    · rw [hidx] at h
      exact absurd h (by simp)
    · rw [hidx] at h
      simp only [Option.some.injEq] at h
      exact ⟨i, rfl, idxFrom_ge _ _ _ _ hidx, h.symm⟩
  · rw [Bool.not_eq_true] at hp
    rw [hp] at h
    exact absurd h (by simp)

theorem firstLine_of_open {c : String}
    (h : dashOpen.isPrefixOf (normChars c.data) = true) :
    firstLineOf c = ['-', '-', '-'] := by
  rw [ List.isPrefixOf_iff_prefix] at h
  obtain ⟨t, ht⟩ := h
  unfold firstLineOf
  rw [← ht]
  rfl

theorem parseFrontmatter_none_of_firstLine {c : String}
    (h : firstLineOf c ≠ ['-', '-', '-']) : parseFrontmatter c = none := by
  rcases hp : parseFrontmatter c with _ | fm
  · rfl
  · exact absurd (firstLine_of_open (parseFrontmatter_eq_some hp).1) h

/-! ### Frontmatter field-collection lemmas -/

theorem lookup_insertField :
    ∀ (acc : List (String × String)) (k0 v k),
      lookupField (insertField acc k0 v) k =
        if k0 = k then some v else lookupField acc k := by
  intro acc
  induction acc with
  | nil =>
    intro k0 v k
    by_cases h : k0 = k <;> simp [insertField, lookupField, h]
  | cons p rest ih =>
    obtain ⟨ka, va⟩ := p
    intro k0 v k
    by_cases h1 : ka = k0
    · subst h1
      by_cases h2 : ka = k <;> simp [insertField, lookupField, h2]
    · by_cases h2 : ka = k
      · subst h2
        have hne : ¬ k0 = ka := fun he => h1 he.symm
        simp [insertField, lookupField, h1, hne, ih]
      · simp [insertField, lookupField, h1, h2, ih]

theorem lookup_fmFoldAux (k : String) :
    ∀ (lines : List (List Char)) (acc : List (String × String)),
      lookupField (lines.foldl fmStep acc) k =
        orElseO (lastVal k lines) (lookupField acc k) := by
  intro lines
  induction lines with
  | nil => intro acc; rfl
  | cons l ls ih =>
    intro acc
    rw [List.foldl_cons, ih]
    cases hls : lastVal k ls with
    | some v => simp [orElseO, lastVal, hls]
    | none =>
      simp only [lastVal, hls, orElseO]
      cases hl : parseLine l with
      | none => simp [fmStep, hl, orElseO]
      | some kv =>
        obtain ⟨k0, v⟩ := kv
        simp only [fmStep, hl, lookup_insertField]
        by_cases h : k0 = k <;> simp [h, orElseO]

/-- Looking up a key in the collected frontmatter fields returns the
trimmed value of the last block line that matches the regex with that
key. -/
theorem lookup_fmFold (lines : List (List Char)) (k : String) :
    lookupField (fmFold lines) k = lastVal k lines := by
  rw [fmFold, lookup_fmFoldAux]
  cases lastVal k lines <;> rfl

/-! ### Line parsing lemmas -/

theorem splitKey_app :
    ∀ (pre suf : List Char), pre.all keyChar = true →
      splitKey (pre ++ ':' :: suf) = (pre, ':' :: suf) := by
  intro pre
  induction pre with
  | nil => intro suf _; rfl
  | cons c pre' ih =>
    intro suf hall
    rw [List.all_cons, Bool.and_eq_true] at hall
    simp [splitKey, hall.1, ih suf hall.2]

theorem splitKey_recompose : ∀ l : List Char, (splitKey l).1 ++ (splitKey l).2 = l := by
  intro l
  induction l with
  | nil => rfl
  | cons c rest ih =>
    by_cases h : keyChar c = true
    · simp [splitKey, h, ih]
    · rw [Bool.not_eq_true] at h
      simp [splitKey, h]

theorem splitKey_all_key : ∀ l : List Char, (splitKey l).1.all keyChar = true := by
  intro l
  induction l with
  | nil => rfl
  | cons c rest ih =>
    by_cases h : keyChar c = true
    · simp [splitKey, h, ih]
    · rw [Bool.not_eq_true] at h
      simp [splitKey, h]

/-- A line of the shape `key: value` (word-leading key of word characters
and hyphens, matchable remainder) is captured, with the value trimmed. -/
theorem parseLine_capture (c : Char) (kc suffix : List Char)
    (hc : isWordChar c = true) (hkc : kc.all keyChar = true)
    (hv : valueMatch suffix = true) :
    parseLine (c :: kc ++ ':' :: suffix) =
      some (String.mk (c :: kc), String.mk (trimChars suffix)) := by
  have hall : (c :: kc).all keyChar = true := by
    rw [List.all_cons, Bool.and_eq_true]
    exact ⟨by simp [keyChar, hc], hkc⟩
  have : (c :: kc ++ ':' :: suffix) = ((c :: kc) ++ ':' :: suffix) := rfl
  rw [parseLine, this, splitKey_app _ _ hall]
  simp [hc, hv]

/-- Conversely, every captured line has that shape, and the captured
value is the trimmed remainder of the line after the colon. -/
theorem parseLine_some_inv {l : List Char} {ks vs : String}
    (h : parseLine l = some (ks, vs)) :
    ∃ c kc suffix, l = c :: kc ++ ':' :: suffix ∧ isWordChar c = true ∧
      kc.all keyChar = true ∧ valueMatch suffix = true ∧
      ks = String.mk (c :: kc) ∧ vs = String.mk (trimChars suffix) := by
  rw [parseLine] at h
  rcases hsk : splitKey l with ⟨k1, r1⟩
  rw [hsk] at h
  cases k1 with
  | nil => simp at h
  | cons c kc =>
    cases r1 with
    | nil => simp at h
    | cons ch suffix =>
      have hl : l = c :: kc ++ ch :: suffix := by
        have hr := splitKey_recompose l
        rw [hsk] at hr
        exact hr.symm
      have hkey := splitKey_all_key l
      rw [hsk] at hkey
      simp only [List.all_cons, Bool.and_eq_true] at hkey
      simp only [] at h
      split at h
      next hcond =>
        simp only [Bool.and_eq_true, beq_iff_eq] at hcond
        obtain ⟨⟨hch, hw⟩, hv⟩ := hcond
        subst hch
        simp only [Option.some.injEq, Prod.mk.injEq] at h
        exact ⟨c, kc, suffix, hl, hw, hkey.2, hv, h.1.symm, h.2.symm⟩
      next hcond => exact absurd h (by simp)

/-! ### Run decomposition lemmas -/

theorem validate_none {fs : FS} (h : fs.manifest = none) :
    validatePlugin fs = { out := [], errors := [fatalMsg], warnings := [], exitCode := 0 } := by
  unfold validatePlugin
  rw [h]

theorem validate_errors {fs : FS} {m : Manifest} (h : fs.manifest = some m) :
    (validatePlugin fs).errors =
      nameErrors m ++ missingFieldErrors m ++ skillsErrors fs.skillsDir ++
        rulesErrors fs.rulesDir ++ commandsErrors fs.commandsDir ++ agentsErrors fs.agentsDir := by
  unfold validatePlugin
  rw [h]

theorem validate_warnings {fs : FS} {m : Manifest} (h : fs.manifest = some m) :
    (validatePlugin fs).warnings = logoWarnings m (fs.fileExists (jsStrOpt m.logo)) := by
  unfold validatePlugin
  rw [h]

theorem validate_exit {fs : FS} {m : Manifest} (h : fs.manifest = some m) :
    (validatePlugin fs).exitCode = if (validatePlugin fs).errors.isEmpty then 0 else 1 := by
  unfold validatePlugin
  rw [h]

/-! ### Shapes of the recorded error messages -/

theorem fmKeyErrors_shape {label ent : String} {fm : List (String × String)} {e : String}
    (he : e ∈ fmKeyErrors label ent fm) : ∃ x, e = label ++ x := by
  unfold fmKeyErrors at he
  rw [List.mem_append] at he
  rcases he with he | he <;>
  · split at he
    · exact absurd he (List.not_mem_nil _)
    · rw [List.mem_singleton] at he
      exact ⟨_, he⟩

theorem skillCheck_shape {sk : SkillEntry} {e : String}
    (he : e ∈ skillCheck sk) : ∃ x, e = "Skill " ++ x := by
  obtain ⟨n, md⟩ := sk
  rcases md with _ | content
  · simp only [skillCheck, List.mem_singleton] at he
    exact ⟨_, he⟩
  · rcases hfm : parseFrontmatter content with _ | fm
    · simp only [skillCheck, hfm, List.mem_singleton] at he
      exact ⟨_, he⟩
    · simp only [skillCheck, hfm] at he
      exact fmKeyErrors_shape he

theorem skillsErrors_shape {sd : Option (List SkillEntry)} {e : String}
    (he : e ∈ skillsErrors sd) : (∃ x, e = "Skill " ++ x) ∨ e = skillsMissingMsg := by
  rcases sd with _ | entries
  · rw [skillsErrors, List.mem_singleton] at he
    exact Or.inr he
  · rw [skillsErrors, List.mem_flatten] at he
    obtain ⟨l, hl, hel⟩ := he
    rw [List.mem_map] at hl
    obtain ⟨sk, _, rfl⟩ := hl
    exact Or.inl (skillCheck_shape hel)

theorem docCheck_shape {label : String} {f : DirFile} {e : String}
    (he : e ∈ docCheck label f) : ∃ x, e = label ++ x := by
  rcases hfm : parseFrontmatter f.content with _ | fm
  · simp only [docCheck, hfm, List.mem_singleton] at he
    exact ⟨_, he⟩
  · simp only [docCheck, hfm] at he
    exact fmKeyErrors_shape he

theorem ruleCheck_shape {f : DirFile} {e : String}
    (he : e ∈ ruleCheck f) : ∃ x, e = "Rule " ++ x := by
  rcases hfm : parseFrontmatter f.content with _ | fm
  · simp only [ruleCheck, hfm, List.mem_singleton] at he
    exact ⟨_, he⟩
  · simp only [ruleCheck, hfm] at he
    split at he
    all_goals
      first
      | exact absurd he (List.not_mem_nil _)
      | (rw [List.mem_singleton] at he; exact ⟨_, he⟩)

theorem rulesErrors_shape {rd : Option (List DirFile)} {e : String}
    (he : e ∈ rulesErrors rd) : ∃ x, e = "Rule " ++ x := by
  rcases rd with _ | files
  · exact absurd he (List.not_mem_nil _)
  · rw [rulesErrors, List.mem_flatten] at he
    obtain ⟨l, hl, hel⟩ := he
    rw [List.mem_map] at hl
    obtain ⟨f, _, rfl⟩ := hl
    exact ruleCheck_shape hel

theorem commandsErrors_shape {cd : Option (List DirFile)} {e : String}
    (he : e ∈ commandsErrors cd) : ∃ x, e = "Command " ++ x := by
  rcases cd with _ | files
  · exact absurd he (List.not_mem_nil _)
  · rw [commandsErrors, List.mem_flatten] at he
    obtain ⟨l, hl, hel⟩ := he
    rw [List.mem_map] at hl
    obtain ⟨f, _, rfl⟩ := hl
    exact docCheck_shape hel

theorem agentsErrors_shape {ad : Option (List DirFile)} {e : String}
    (he : e ∈ agentsErrors ad) : ∃ x, e = "Agent " ++ x := by
  rcases ad with _ | files
  · exact absurd he (List.not_mem_nil _)
  · rw [agentsErrors, List.mem_flatten] at he
    obtain ⟨l, hl, hel⟩ := he
    rw [List.mem_map] at hl
    obtain ⟨f, _, rfl⟩ := hl
    exact docCheck_shape hel

theorem nameErrors_shape {m : Manifest} {e : String}
    (he : e ∈ nameErrors m) : e = patternMsg (jsStrOpt m.name) := by
  unfold nameErrors at he
  split at he
  · exact absurd he (List.not_mem_nil _)
  · rw [List.mem_singleton] at he
    exact he

theorem missingFieldErrors_shape {m : Manifest} {e : String}
    (he : e ∈ missingFieldErrors m) : ∃ f, f ∈ requiredFields ∧ e = fieldMsg f := by
  unfold missingFieldErrors at he
  rw [List.mem_map] at he
  obtain ⟨f, hf, rfl⟩ := he
  rw [List.mem_filter] at hf
  exact ⟨f, hf.1, rfl⟩

/-! ### Counting recorded errors -/

theorem hasPfx_append (p x : String) : hasPfx p (p ++ x) = true := by
  rw [hasPfx, String.data_append, List.isPrefixOf_iff_prefix]
  exact List.prefix_append _ _

theorem pfx_ne_false {a b : String} (p : String) (he : a = b)
    (h1 : hasPfx p a = true) (h2 : hasPfx p b = false) : False := by
  rw [he] at h1
  rw [h1] at h2
  exact Bool.noConfusion h2

/-- The fixed prefix of the name-pattern error message. -/
def patternPfx : String := "plugin.json name \""

/-- The fixed prefix of the missing-required-field error messages. -/
def fieldPfx : String := "plugin.json missing required field: "

/-- Recognizer of the name-pattern error among recorded messages. -/
def isPatternErr (e : String) : Bool := hasPfx patternPfx e

theorem countP_patternErr {fs : FS} {m : Manifest} (h : fs.manifest = some m)
    (hbad : namePatTest (jsStrOpt m.name) = false) :
    (validatePlugin fs).errors.countP isPatternErr = 1 := by
  rw [validate_errors h]
  simp only [List.countP_append]
  have hp : isPatternErr (patternMsg (jsStrOpt m.name)) = true := hasPfx_append patternPfx _
  have h1 : (nameErrors m).countP isPatternErr = 1 := by
    rw [nameErrors, hbad]
    simp [List.countP_cons, hp]
  have h2 : (missingFieldErrors m).countP isPatternErr = 0 := by
    rw [List.countP_eq_zero]
    intro e he
    obtain ⟨f, _, rfl⟩ := missingFieldErrors_shape he
    simp [show isPatternErr (fieldMsg f) = false from rfl]
  have h3 : (skillsErrors fs.skillsDir).countP isPatternErr = 0 := by
    rw [List.countP_eq_zero]
    intro e he
    rcases skillsErrors_shape he with ⟨x, rfl⟩ | rfl
    · simp [show isPatternErr ("Skill " ++ x) = false from rfl]
    · simp [show isPatternErr skillsMissingMsg = false from rfl]
  have h4 : (rulesErrors fs.rulesDir).countP isPatternErr = 0 := by
    rw [List.countP_eq_zero]
    intro e he
    obtain ⟨x, rfl⟩ := rulesErrors_shape he
    simp [show isPatternErr ("Rule " ++ x) = false from rfl]
  have h5 : (commandsErrors fs.commandsDir).countP isPatternErr = 0 := by
    rw [List.countP_eq_zero]
    intro e he
    obtain ⟨x, rfl⟩ := commandsErrors_shape he
    simp [show isPatternErr ("Command " ++ x) = false from rfl]
  have h6 : (agentsErrors fs.agentsDir).countP isPatternErr = 0 := by
    rw [List.countP_eq_zero]
    intro e he
    obtain ⟨x, rfl⟩ := agentsErrors_shape he
    simp [show isPatternErr ("Agent " ++ x) = false from rfl]
  rw [h1, h2, h3, h4, h5, h6]

theorem fieldMsg_inj : Function.Injective fieldMsg := by
  intro a b h
  have h2 := congrArg String.data h
  rw [fieldMsg, fieldMsg, String.data_append, String.data_append] at h2
  exact String.ext (List.append_cancel_left h2)

theorem count_map_fieldMsg (l : List String) (f : String) :
    (l.map fieldMsg).count (fieldMsg f) = l.count f := by
  induction l with
  | nil => rfl
  | cons a l ih =>
    rw [List.map_cons, List.count_cons, List.count_cons, ih]
    by_cases hax : a = f
    · subst hax
      simp
    · have hne : ¬ fieldMsg a = fieldMsg f := fun hc => hax (fieldMsg_inj hc)
      simp [hax, hne]

theorem count_missingField (m : Manifest) (f : String) (hf : f ∈ requiredFields) :
    (missingFieldErrors m).count (fieldMsg f) =
      (if truthyOpt (getField m f) = true then 0 else 1) := by
  rw [missingFieldErrors, count_map_fieldMsg]
  by_cases ht : truthyOpt (getField m f) = true
  · rw [if_pos ht, List.count_eq_zero]
    intro hmem
    rw [List.mem_filter, ht] at hmem
    simp at hmem
  · rw [if_neg ht]
    rw [Bool.not_eq_true] at ht
    rw [List.count_filter (by simp [ht])]
    simp only [requiredFields] at hf
    fin_cases hf <;> decide

theorem count_fieldMsg_errors {fs : FS} {m : Manifest} (h : fs.manifest = some m)
    {f : String} (hf : f ∈ requiredFields) :
    (validatePlugin fs).errors.count (fieldMsg f) =
      (if truthyOpt (getField m f) = true then 0 else 1) := by
  rw [validate_errors h]
  simp only [List.count_append]
  have hself : hasPfx fieldPfx (fieldMsg f) = true := hasPfx_append fieldPfx f
  have h1 : (nameErrors m).count (fieldMsg f) = 0 := by
    rw [List.count_eq_zero]
    intro hmem
    exact pfx_ne_false fieldPfx (nameErrors_shape hmem) hself rfl
  have h2 : (skillsErrors fs.skillsDir).count (fieldMsg f) = 0 := by
    rw [List.count_eq_zero]
    intro hmem
    rcases skillsErrors_shape hmem with ⟨x, hx⟩ | hx
    · exact pfx_ne_false fieldPfx hx hself rfl
    · exact pfx_ne_false fieldPfx hx hself rfl
  have h3 : (rulesErrors fs.rulesDir).count (fieldMsg f) = 0 := by
    rw [List.count_eq_zero]
    intro hmem
    obtain ⟨x, hx⟩ := rulesErrors_shape hmem
    exact pfx_ne_false fieldPfx hx hself rfl
  have h4 : (commandsErrors fs.commandsDir).count (fieldMsg f) = 0 := by
    rw [List.count_eq_zero]
    intro hmem
    obtain ⟨x, hx⟩ := commandsErrors_shape hmem
    exact pfx_ne_false fieldPfx hx hself rfl
  have h5 : (agentsErrors fs.agentsDir).count (fieldMsg f) = 0 := by
    rw [List.count_eq_zero]
    intro hmem
    obtain ⟨x, hx⟩ := agentsErrors_shape hmem
    exact pfx_ne_false fieldPfx hx hself rfl
  rw [h1, h2, h3, h4, h5, count_missingField m f hf]
  omega

theorem count_skillsMissing {fs : FS} {m : Manifest} (h : fs.manifest = some m)
    (hsd : fs.skillsDir = none) :
    (validatePlugin fs).errors.count skillsMissingMsg = 1 := by
  rw [validate_errors h]
  simp only [List.count_append]
  have h1 : (nameErrors m).count skillsMissingMsg = 0 := by
    rw [List.count_eq_zero]
    intro hmem
    exact pfx_ne_false "skills/" (nameErrors_shape hmem) rfl rfl
  have h2 : (missingFieldErrors m).count skillsMissingMsg = 0 := by
    rw [List.count_eq_zero]
    intro hmem
    obtain ⟨f, _, hx⟩ := missingFieldErrors_shape hmem
    exact pfx_ne_false "skills/" hx rfl rfl
  have h3 : (skillsErrors fs.skillsDir).count skillsMissingMsg = 1 := by
    rw [hsd]
    exact List.count_singleton_self _
  have h4 : (rulesErrors fs.rulesDir).count skillsMissingMsg = 0 := by
    rw [List.count_eq_zero]
    intro hmem
    obtain ⟨x, hx⟩ := rulesErrors_shape hmem
    exact pfx_ne_false "skills/" hx rfl rfl
  have h5 : (commandsErrors fs.commandsDir).count skillsMissingMsg = 0 := by
    rw [List.count_eq_zero]
    intro hmem
    obtain ⟨x, hx⟩ := commandsErrors_shape hmem
    exact pfx_ne_false "skills/" hx rfl rfl
  have h6 : (agentsErrors fs.agentsDir).count skillsMissingMsg = 0 := by
    rw [List.count_eq_zero]
    intro hmem
    obtain ⟨x, hx⟩ := agentsErrors_shape hmem
    exact pfx_ne_false "skills/" hx rfl rfl
  rw [h1, h2, h3, h4, h5, h6]

/-! ### Falsy values versus absent keys -/

theorem lookup_eraseField_self (fm : List (String × String)) (k : String) :
    lookupField (eraseField fm k) k = none := by
  induction fm with
  | nil => rfl
  | cons p rest ih =>
    obtain ⟨k0, v0⟩ := p
    by_cases h : k0 = k <;> simp [eraseField, h, lookupField, ih]

theorem lookup_eraseField_ne (fm : List (String × String)) (k k' : String)
    (hne : k' ≠ k) :
    lookupField (eraseField fm k) k' = lookupField fm k' := by
  induction fm with
  | nil => rfl
  | cons p rest ih =>
    obtain ⟨k0, v0⟩ := p
    by_cases h : k0 = k
    · subst h
      have h2 : ¬ k0 = k' := fun he => hne he.symm
      simp [eraseField, lookupField, h2, ih]
    · by_cases h2 : k0 = k'
      · subst h2
        simp [eraseField, hne, lookupField]
      · simp [eraseField, h, lookupField, h2, ih]

theorem falsy_fmKey_as_missing (label ent : String) (fm : List (String × String))
    (k : String) (hk : k = "name" ∨ k = "description")
    (hv : lookupField fm k = some "") :
    fmKeyErrors label ent fm = fmKeyErrors label ent (eraseField fm k) := by
  have htk : truthyLookup fm k = false := by simp [truthyLookup, hv]
  have hek : truthyLookup (eraseField fm k) k = false := by
    simp [truthyLookup, lookup_eraseField_self]
  rcases hk with rfl | rfl
  · have hd : truthyLookup (eraseField fm "name") "description" =
        truthyLookup fm "description" := by
      rw [truthyLookup, truthyLookup, lookup_eraseField_ne _ _ _ (by decide)]
    rw [fmKeyErrors, fmKeyErrors, htk, hek, hd]
  · have hd : truthyLookup (eraseField fm "description") "name" = truthyLookup fm "name" := by
      rw [truthyLookup, truthyLookup, lookup_eraseField_ne _ _ _ (by decide)]
    rw [fmKeyErrors, fmKeyErrors, htk, hek, hd]

theorem falsy_field_as_missing (m : Manifest) (f : String) (hf : f ∈ requiredFields)
    (v : JsVal) (hv : JsVal.truthy v = false) :
    missingFieldErrors (setField m f (some v)) = missingFieldErrors (setField m f none) := by
  have hpt : ∀ g ∈ requiredFields,
      (!truthyOpt (getField (setField m f (some v)) g)) =
        (!truthyOpt (getField (setField m f none) g)) := by
    intro g hg
    simp only [requiredFields, List.mem_cons, List.not_mem_nil, or_false] at hf hg
    rcases hf with rfl | rfl | rfl | rfl | rfl <;>
      rcases hg with rfl | rfl | rfl | rfl | rfl <;>
        simp [setField, getField, truthyOpt, hv]
  rw [missingFieldErrors, missingFieldErrors, List.filter_congr hpt]

/-! ### Concrete filesystem fixtures -/

/-- A bundle root with no readable manifest and no directories. -/
def fsEmpty : FS :=
  { manifest := none, fileExists := fun _ => false, skillsDir := none,
    rulesDir := none, commandsDir := none, agentsDir := none }

/-- A manifest whose name violates the pattern but is otherwise complete. -/
def mC4 : Manifest :=
  { name := some (.str "My_Plugin"), description := some (.str "d"),
    version := some (.str "1.0.0"), author := some (.str "a"),
    license := some (.str "MIT"), logo := none }

def fsC4 : FS :=
  { manifest := some mC4, fileExists := fun _ => false, skillsDir := none,
    rulesDir := none, commandsDir := none, agentsDir := none }

/-- A manifest that is fully conformant except for a missing license. -/
def mC5 : Manifest :=
  { name := some (.str "ts-best"), description := some (.str "d"),
    version := some (.str "1.0.0"), author := some (.str "a"),
    license := none, logo := none }

def fsC5 : FS :=
  { manifest := some mC5, fileExists := fun _ => false, skillsDir := none,
    rulesDir := none, commandsDir := none, agentsDir := none }

/-- A fully conformant manifest without a logo declaration. -/
def mC6 : Manifest :=
  { name := some (.str "ts-best"), description := some (.str "d"),
    version := some (.str "1.0.0"), author := some (.str "a"),
    license := some (.str "MIT"), logo := none }

def fsC6 : FS :=
  { manifest := some mC6, fileExists := fun _ => false, skillsDir := none,
    rulesDir := none, commandsDir := none, agentsDir := none }

/-- A fully conformant manifest that declares a logo path. -/
def mC7 : Manifest :=
  { name := some (.str "ts-best"), description := some (.str "d"),
    version := some (.str "1.0.0"), author := some (.str "a"),
    license := some (.str "MIT"), logo := some (.str "logo.png") }

def fsC7 : FS :=
  { manifest := some mC7, fileExists := fun _ => false, skillsDir := some [],
    rulesDir := none, commandsDir := none, agentsDir := none }

/-- A complete manifest used to compare falsy and absent field values. -/
def mW : Manifest :=
  { name := some (.str "n"), description := some (.str "d"),
    version := some (.str "v"), author := some (.str "a"),
    license := some (.str "l"), logo := none }

/-! ### The claims -/

/-- C1: the claim that the process exits 1 exactly when an error was
recorded fails on the code: when the manifest is missing or unparseable
the script records the fatal error and returns before the final
reporting block, so `process.exit(1)` is never reached and the process
exits 0 with an error on record (and prints nothing). -/
theorem validator_fatal_error_exit_zero_bug :
    (validatePlugin fsEmpty).errors ≠ [] ∧
    (validatePlugin fsEmpty).exitCode = 0 ∧
    (validatePlugin fsEmpty).errors = [fatalMsg] ∧
    (validatePlugin fsEmpty).out = [] :=
  ⟨by decide, rfl, rfl, rfl⟩

/-- C2: a missing or unparseable manifest records exactly the one fatal
error, records no warning, prints nothing, and halts before every other
check: the outcome is the same for every filesystem state with an
unreadable manifest, whatever its directories contain. -/
theorem manifest_fatal_halts_all_checks :
    ∀ fs : FS, fs.manifest = none →
      (validatePlugin fs).errors = [fatalMsg] ∧
      (validatePlugin fs).warnings = [] ∧
      (validatePlugin fs).out = [] ∧
      ∀ fs' : FS, fs'.manifest = none → validatePlugin fs' = validatePlugin fs := by
  intro fs h
  rw [validate_none h]
  refine ⟨rfl, rfl, rfl, ?_⟩
  intro fs' h'
  rw [validate_none h']

theorem manifest_fatal_halts_all_checks_witness :
    (validatePlugin fsEmpty).errors = [fatalMsg] ∧ (validatePlugin fsEmpty).warnings = [] :=
  ⟨(manifest_fatal_halts_all_checks fsEmpty rfl).1,
   (manifest_fatal_halts_all_checks fsEmpty rfl).2.1⟩

/-- C8: the validator is deterministic and idempotent: it performs no
writes, so a second run over the state left by a first run produces an
identical report (printed lines, error list, warning list and exit code
all equal), and the filesystem state is unchanged. -/
theorem validator_deterministic_idempotent (fs : FS) :
    (runValidator ((runValidator fs).2)).1 = (runValidator fs).1 ∧
    (runValidator ((runValidator fs).2)).1.out = (runValidator fs).1.out ∧
    (runValidator ((runValidator fs).2)).1.errors = (runValidator fs).1.errors ∧
    (runValidator ((runValidator fs).2)).1.warnings = (runValidator fs).1.warnings ∧
    (runValidator ((runValidator fs).2)).1.exitCode = (runValidator fs).1.exitCode ∧
    (runValidator fs).2 = fs :=
  ⟨rfl, rfl, rfl, rfl, rfl, rfl⟩

/-- C9: frontmatter extraction returns `none` unless the closing
delimiter `\n---\n` occurs at an index of at least 4 of the normalized
content; in particular an opening `---` line immediately followed by a
closing `---` line, and a document whose closing `---` is the final line
with no trailing newline, are both treated as missing frontmatter. -/
theorem closing_delimiter_required :
    (∀ c : String, dashOpen.isPrefixOf (normChars c.data) = true →
      idxFrom dashClose ((normChars c.data).drop 4) 4 = none →
      parseFrontmatter c = none) ∧
    (∀ (c : String) (fm : List (String × String)), parseFrontmatter c = some fm →
      ∃ i, idxFrom dashClose ((normChars c.data).drop 4) 4 = some i ∧ 4 ≤ i) ∧
    parseFrontmatter "---\n---\n" = none ∧
    parseFrontmatter "---\na: b\n---" = none := by
  refine ⟨?_, ?_, by decide, by decide⟩
  · intro c hp hn
    simp [parseFrontmatter, hp, hn]
  · intro c fm h
    obtain ⟨_, i, hi, hge, _⟩ := parseFrontmatter_eq_some h
    exact ⟨i, hi, hge⟩

theorem closing_delimiter_required_witness :
    ∃ i, idxFrom dashClose ((normChars ("---\na: b\n---\nx" : String).data).drop 4) 4 =
      some i ∧ 4 ≤ i :=
  closing_delimiter_required.2.1 "---\na: b\n---\nx" [("a", "b")] (by decide)

/-- C3: a document has frontmatter only if it opens with a `---` line
(otherwise extraction yields nothing and a skill gets the
missing-frontmatter error); when extraction succeeds, a closing line
exists and looking up any key returns the trimmed value of the last
block line matching the `key: value` regex with that key; a line of that
shape is captured with its value trimmed, every captured line has that
shape, and non-matching lines are ignored. -/
theorem frontmatter_extraction_spec :
    (∀ c : String, firstLineOf c ≠ ['-', '-', '-'] → parseFrontmatter c = none) ∧
    (∀ (c : String) (fm : List (String × String)), parseFrontmatter c = some fm →
      dashOpen.isPrefixOf (normChars c.data) = true ∧
      ∃ i, idxFrom dashClose ((normChars c.data).drop 4) 4 = some i ∧
        ∀ k, lookupField fm k = lastVal k (splitNl (((normChars c.data).take i).drop 4))) ∧
    (∀ (c : Char) (kc suffix : List Char), isWordChar c = true →
      kc.all keyChar = true → valueMatch suffix = true →
      parseLine (c :: kc ++ ':' :: suffix) =
        some (String.mk (c :: kc), String.mk (trimChars suffix))) ∧
    (∀ (l : List Char) (ks vs : String), parseLine l = some (ks, vs) →
      ∃ c kc suffix, l = c :: kc ++ ':' :: suffix ∧ isWordChar c = true ∧
        kc.all keyChar = true ∧ valueMatch suffix = true ∧
        ks = String.mk (c :: kc) ∧ vs = String.mk (trimChars suffix)) ∧
    (∀ (acc : List (String × String)) (l : List Char), parseLine l = none →
      fmStep acc l = acc) ∧
    (∀ n content : String, firstLineOf content ≠ ['-', '-', '-'] →
      skillCheck { name := n, skillMd := some content } = [skillNoFmMsg n]) := by
  refine ⟨fun c hc => parseFrontmatter_none_of_firstLine hc, ?_, parseLine_capture, ?_, ?_, ?_⟩
  · intro c fm h
    obtain ⟨hp, i, hi, _, hfm⟩ := parseFrontmatter_eq_some h
    refine ⟨hp, i, hi, ?_⟩
    intro k
    rw [hfm, lookup_fmFold]
  · intro l ks vs h
    exact parseLine_some_inv h
  · intro acc l h
    simp [fmStep, h]
  · intro n content hc
    simp [skillCheck, parseFrontmatter_none_of_firstLine hc]

theorem frontmatter_extraction_spec_witness :
    skillCheck { name := "demo", skillMd := some "plain text" } = [skillNoFmMsg "demo"] :=
  frontmatter_extraction_spec.2.2.2.2.2 "demo" "plain text" (by decide)

/-- C4: a manifest name that violates the pattern
`^[a-z0-9](?:[a-z0-9.-]*[a-z0-9])?$` produces exactly one pattern-mismatch
error and validation continues: the required-field checks and the
subdirectory checks still contribute their errors, and the run exits 1. -/
theorem name_pattern_violation_single_error (fs : FS) (m : Manifest)
    (h : fs.manifest = some m) (hbad : namePatTest (jsStrOpt m.name) = false) :
    (validatePlugin fs).errors.countP isPatternErr = 1 ∧
    (∀ f ∈ requiredFields, truthyOpt (getField m f) = false →
      fieldMsg f ∈ (validatePlugin fs).errors) ∧
    (fs.skillsDir = none → skillsMissingMsg ∈ (validatePlugin fs).errors) ∧
    (validatePlugin fs).exitCode = 1 := by
  have hcount := countP_patternErr h hbad
  refine ⟨hcount, ?_, ?_, ?_⟩
  · intro f hf ht
    rw [validate_errors h]
    simp only [List.mem_append]
    have hmem : fieldMsg f ∈ missingFieldErrors m := by
      rw [missingFieldErrors]
      exact List.mem_map_of_mem _ (List.mem_filter.2 ⟨hf, by simp [ht]⟩)
    exact Or.inl (Or.inl (Or.inl (Or.inl (Or.inr hmem))))
  · intro hsd
    rw [validate_errors h]
    simp only [List.mem_append]
    have hmem : skillsMissingMsg ∈ skillsErrors fs.skillsDir := by
      rw [hsd]
      exact List.mem_singleton_self _
    exact Or.inl (Or.inl (Or.inl (Or.inr hmem)))
  · rw [validate_exit h]
    cases hemp : (validatePlugin fs).errors.isEmpty with
    | false => rfl
    | true =>
      rw [List.isEmpty_iff.mp hemp] at hcount
      simp at hcount

theorem name_pattern_violation_single_error_witness :
    (validatePlugin fsC4).errors.countP isPatternErr = 1 ∧
    (validatePlugin fsC4).exitCode = 1 :=
  ⟨(name_pattern_violation_single_error fsC4 mC4 rfl (by decide)).1,
   (name_pattern_violation_single_error fsC4 mC4 rfl (by decide)).2.2.2⟩

/-- C5: each missing (falsy) required manifest field contributes exactly
one recorded error naming that field, a present (truthy) field
contributes none, and the subdirectory checks still proceed. -/
theorem required_field_missing_single_error (fs : FS) (m : Manifest)
    (h : fs.manifest = some m) (f : String) (hf : f ∈ requiredFields) :
    (truthyOpt (getField m f) = false →
      (validatePlugin fs).errors.count (fieldMsg f) = 1) ∧
    (truthyOpt (getField m f) = true →
      (validatePlugin fs).errors.count (fieldMsg f) = 0) ∧
    (fs.skillsDir = none → skillsMissingMsg ∈ (validatePlugin fs).errors) := by
  have hc := count_fieldMsg_errors h hf
  refine ⟨?_, ?_, ?_⟩
  · intro ht
    rw [hc, ht]
    rfl
  · intro ht
    rw [hc, ht]
    rfl
  · intro hsd
    rw [validate_errors h]
    simp only [List.mem_append]
    have hmem : skillsMissingMsg ∈ skillsErrors fs.skillsDir := by
      rw [hsd]
      exact List.mem_singleton_self _
    exact Or.inl (Or.inl (Or.inl (Or.inr hmem)))

theorem required_field_missing_single_error_witness :
    (validatePlugin fsC5).errors.count (fieldMsg "license") = 1 ∧
    skillsMissingMsg ∈ (validatePlugin fsC5).errors :=
  ⟨(required_field_missing_single_error fsC5 mC5 rfl "license" (by decide)).1 (by decide),
   (required_field_missing_single_error fsC5 mC5 rfl "license" (by decide)).2.2 rfl⟩

/-- C6: the skills directory is required: its absence records exactly one
error and the other sections still run on their own directories exactly
as otherwise; an absent rules, commands or agents directory contributes
no error, and warnings only ever come from the logo check; a skill entry
without `SKILL.md` yields exactly the one error naming it, with no
frontmatter parse. -/
theorem skills_required_other_dirs_optional (fs : FS) (m : Manifest)
    (h : fs.manifest = some m) :
    (fs.skillsDir = none →
      (validatePlugin fs).errors.count skillsMissingMsg = 1 ∧
      (validatePlugin fs).errors =
        nameErrors m ++ missingFieldErrors m ++ [skillsMissingMsg] ++
          rulesErrors fs.rulesDir ++ commandsErrors fs.commandsDir ++
          agentsErrors fs.agentsDir) ∧
    (fs.rulesDir = none → rulesErrors fs.rulesDir = []) ∧
    (fs.commandsDir = none → commandsErrors fs.commandsDir = []) ∧
    (fs.agentsDir = none → agentsErrors fs.agentsDir = []) ∧
    (validatePlugin fs).warnings = logoWarnings m (fs.fileExists (jsStrOpt m.logo)) ∧
    (∀ n : String, skillCheck { name := n, skillMd := none } = [skillNoFileMsg n]) := by
  refine ⟨?_, ?_, ?_, ?_, validate_warnings h, fun n => rfl⟩
  · intro hsd
    refine ⟨count_skillsMissing h hsd, ?_⟩
    rw [validate_errors h, hsd]
    rfl
  · intro hrd
    rw [hrd]
    rfl
  · intro hcd
    rw [hcd]
    rfl
  · intro had
    rw [had]
    rfl

theorem skills_required_other_dirs_optional_witness :
    (validatePlugin fsC6).errors.count skillsMissingMsg = 1 ∧
    (validatePlugin fsC6).warnings = [] :=
  ⟨((skills_required_other_dirs_optional fsC6 mC6 rfl).1 rfl).1,
   (skills_required_other_dirs_optional fsC6 mC6 rfl).2.2.2.2.1⟩

/-- C7: a declared logo path whose file does not exist yields exactly one
warning and no error: the error list (and hence the exit code) is the
same as when the file exists, and a run without recorded errors exits
0. -/
theorem logo_missing_single_warning (fs : FS) (m : Manifest)
    (h : fs.manifest = some m) (p : String) (hp : m.logo = some (.str p))
    (hpe : ¬ p = "") (hne : fs.fileExists p = false) :
    (validatePlugin fs).warnings = [logoMsg p] ∧
    ((validatePlugin fs).errors = [] → (validatePlugin fs).exitCode = 0) ∧
    (validatePlugin { fs with fileExists := fun _ => true }).warnings = [] ∧
    (validatePlugin { fs with fileExists := fun _ => true }).errors =
      (validatePlugin fs).errors ∧
    (validatePlugin { fs with fileExists := fun _ => true }).exitCode =
      (validatePlugin fs).exitCode := by
  have h' : ({ fs with fileExists := fun _ => true } : FS).manifest = some m := h
  have hjs : jsStrOpt m.logo = p := by rw [hp]; rfl
  have hl : truthyOpt m.logo = true := by
    rw [hp]
    simp [truthyOpt, JsVal.truthy, hpe]
  have hne' : fs.fileExists (jsStrOpt m.logo) = false := by rw [hjs]; exact hne
  have herr : (validatePlugin { fs with fileExists := fun _ => true }).errors =
      (validatePlugin fs).errors := by
    rw [validate_errors h', validate_errors h]
  refine ⟨?_, ?_, ?_, herr, ?_⟩
  · rw [validate_warnings h, logoWarnings, hl, hne', hjs]
    rfl
  · intro he
    rw [validate_exit h, he]
    rfl
  · rw [validate_warnings h', logoWarnings, hl]
    rfl
  · rw [validate_exit h', validate_exit h, herr]

theorem logo_missing_single_warning_witness :
    (validatePlugin fsC7).warnings = [logoMsg "logo.png"] ∧
    (validatePlugin fsC7).exitCode = 0 :=
  ⟨(logo_missing_single_warning fsC7 mC7 rfl "logo.png" rfl (by decide) rfl).1,
   (logo_missing_single_warning fsC7 mC7 rfl "logo.png" rfl (by decide) rfl).2.1 (by decide)⟩

/-- C10: presence of required keys is truthiness, not key membership: a
required manifest field set to any falsy value (empty string, 0, false,
null) yields the same missing-field errors as an absent field, and a
required frontmatter key bound to the empty string yields the same
missing-key errors as an absent key. -/
theorem falsy_values_reported_missing :
    (∀ (m : Manifest) (f : String), f ∈ requiredFields →
      ∀ v : JsVal, (v = .str "" ∨ v = .num 0 ∨ v = .bool false ∨ v = .null) →
        missingFieldErrors (setField m f (some v)) =
          missingFieldErrors (setField m f none)) ∧
    (∀ (label ent : String) (fm : List (String × String)) (k : String),
      (k = "name" ∨ k = "description") → lookupField fm k = some "" →
        fmKeyErrors label ent fm = fmKeyErrors label ent (eraseField fm k)) := by
  constructor
  · intro m f hf v hv
    have hv' : JsVal.truthy v = false := by
      rcases hv with rfl | rfl | rfl | rfl <;> decide
    exact falsy_field_as_missing m f hf v hv'
  · exact falsy_fmKey_as_missing

theorem falsy_values_reported_missing_witness :
    missingFieldErrors (setField mW "license" (some (.str ""))) =
      missingFieldErrors (setField mW "license" none) ∧
    fmKeyErrors "Skill " "s/SKILL.md" [("name", "")] =
      fmKeyErrors "Skill " "s/SKILL.md" (eraseField [("name", "")] "name") :=
  ⟨falsy_values_reported_missing.1 mW "license" (by decide) _ (Or.inl rfl),
   falsy_values_reported_missing.2 "Skill " "s/SKILL.md" [("name", "")] "name"
     (Or.inl rfl) (by decide)⟩
